import Mathlib

/-!
# Verification of the viacoin block-header codec (`wire/blockheader.go`)

Shallow embedding of the block-header wire codec, the AuxPoW payload codec,
the Merkle-branch reconstruction algorithm, the header hash derivations and
the size/introspection helpers, together with proofs of the specified
properties.

Modelling conventions:
* byte streams are `List Nat` (each entry a byte value `< 256` on the write
  side; the read side is total on arbitrary lists);
* Go's `io.Reader`-based decoding is modelled by functions
  `List Nat → Except Unit (α × List Nat)` returning the decoded value and
  the unread remainder; a short read is `.error ()`;
* machine integers: `int32` fields are `Int` (serialized as two's complement
  via `_ % 4294967296`, the Euclidean remainder), `uint32`/`uint64` fields are `Nat`
  (serialized modulo `2 ^ 32` / `2 ^ 64` as the Go conversions do);
* `time.Time` timestamps are their non-negative Unix seconds (`Nat`); the
  wire codec truncates them to `uint32` exactly as
  `uint32(bh.Timestamp.Unix())` does.
-/

/-! ## Byte-level primitives (little-endian integers, fixed-size reads) -/

/-- Little-endian 2-byte encoding of `n % 2 ^ 16`. -/
def u16LE (n : Nat) : List Nat :=
  [n % 256, n / 256 % 256]

/-- Little-endian 4-byte encoding of `n % 2 ^ 32`. -/
def u32LE (n : Nat) : List Nat :=
  [n % 256, n / 256 % 256, n / 65536 % 256, n / 16777216 % 256]

/-- Little-endian 8-byte encoding of `n % 2 ^ 64`. -/
def u64LE (n : Nat) : List Nat :=
  [n % 256, n / 256 % 256, n / 65536 % 256, n / 16777216 % 256,
   n / 4294967296 % 256, n / 1099511627776 % 256,
   n / 281474976710656 % 256, n / 72057594037927936 % 256]

/-- Two's-complement little-endian 4-byte encoding of a signed 32-bit value,
as Go's binary writer emits for an `int32`. -/
def int32Bytes (v : Int) : List Nat :=
  u32LE (Int.toNat (v % 4294967296))

/-- Signed reinterpretation of a (little-endian-decoded) 32-bit word, as Go's
`int32(uint32 value)` conversion. -/
def toInt32 (n : Nat) : Int :=
  if n % 4294967296 < 2147483648 then ((n % 4294967296 : Nat) : Int)
  else ((n % 4294967296 : Nat) : Int) - 4294967296

/-- Read a 2-byte little-endian unsigned integer; errors on a short stream. -/
def readU16 : List Nat → Except Unit (Nat × List Nat)
  | b0 :: b1 :: rest => .ok (b0 + 256 * b1, rest)
  | _ => .error ()

/-- Read a 4-byte little-endian unsigned integer; errors on a short stream. -/
def readU32 : List Nat → Except Unit (Nat × List Nat)
  | b0 :: b1 :: b2 :: b3 :: rest =>
    .ok (b0 + 256 * (b1 + 256 * (b2 + 256 * b3)), rest)
  | _ => .error ()

/-- Read an 8-byte little-endian unsigned integer; errors on a short stream. -/
def readU64 : List Nat → Except Unit (Nat × List Nat)
  | b0 :: b1 :: b2 :: b3 :: b4 :: b5 :: b6 :: b7 :: rest =>
    .ok (b0 + 256 * (b1 + 256 * (b2 + 256 * (b3 + 256 * (b4 + 256 *
      (b5 + 256 * (b6 + 256 * b7)))))), rest)
  | _ => .error ()

/-- Read a signed 32-bit little-endian integer (Go `readElement` on `*int32`). -/
def readInt32 (s : List Nat) : Except Unit (Int × List Nat) :=
  match readU32 s with
  | .error e => .error e
  | .ok (n, rest) => .ok (toInt32 n, rest)

/-- Read exactly `n` raw bytes (Go `io.ReadFull` on an `n`-byte buffer);
errors when fewer than `n` bytes remain. -/
def readBytes (n : Nat) (s : List Nat) : Except Unit (List Nat × List Nat) :=
  if n ≤ s.length then .ok (s.take n, s.drop n) else .error ()

/-- Sequencing of stream readers: run the first reader, feed its remainder to
the continuation, propagating any error unchanged (Go's
`if err != nil { return err }` pattern). -/
def step (x : Except Unit (α × List Nat))
    (f : α → List Nat → Except Unit (β × List Nat)) :
    Except Unit (β × List Nat) :=
  match x with
  | .error e => .error e
  | .ok (a, s) => f a s

@[simp] theorem step_ok (a : α) (s : List Nat)
    (f : α → List Nat → Except Unit (β × List Nat)) :
    step (.ok (a, s)) f = f a s := rfl

@[simp] theorem step_error (e : Unit)
    (f : α → List Nat → Except Unit (β × List Nat)) :
    step (.error e) f = .error e := rfl

/-! ## Variable-length integers

Modelled from the spec: the variable-length-integer codec is an external
collaborator (§2 "Primitive codec", §6) whose source (`wire/common.go`:
`ReadVarInt`, `WriteVarInt`, `VarIntSerializeSize`) is not included; it is
the standard Bitcoin compact-size encoding: values below `0xfd` in one byte,
then `0xfd`+`uint16`, `0xfe`+`uint32`, `0xff`+`uint64` forms. -/

/-- Modelled from the spec: `WriteVarInt` of the external variable-length
integer codec (compact-size encoding). -/
def WriteVarInt (n : Nat) : List Nat :=
  if n < 253 then [n]
  else if n ≤ 65535 then 253 :: u16LE n
  else if n ≤ 4294967295 then 254 :: u32LE n
  else 255 :: u64LE n

/-- Modelled from the spec: `ReadVarInt` of the external variable-length
integer codec (compact-size decoding); errors on a short stream. -/
def ReadVarInt : List Nat → Except Unit (Nat × List Nat)
  | [] => .error ()
  | d :: rest =>
    if d = 255 then readU64 rest
    else if d = 254 then readU32 rest
    else if d = 253 then readU16 rest
    else .ok (d, rest)

/-- Modelled from the spec: `VarIntSerializeSize` of the external
variable-length integer codec. -/
def VarIntSerializeSize (n : Nat) : Nat :=
  if n < 253 then 1
  else if n ≤ 65535 then 3
  else if n ≤ 4294967295 then 5
  else 9

/-! ## Data model -/

/-- `MerkleBranch`: an ordered proof path plus a bit-encoded traversal index
(`Index` is a Go `int32`). -/
structure MerkleBranch : Type where
  Branch : List (List Nat)
  Index : Int
deriving Repr

/-- Modelled from the spec: the transaction codec is an external collaborator
(§1, §6) exposing stripped (non-witness) serialize / deserialize and a
stripped-size function; its source (`wire/msgtx.go`) is not included. The
header codec is parameterized over any such codec; the lawfulness facts it
relies on are explicit hypotheses of the theorems below. -/
structure TxCodec (Tx : Type) : Type where
  serializeNoWitness : Tx → List Nat
  deserializeNoWitness : List Nat → Except Unit (Tx × List Nat)
  serializeSizeStripped : Tx → Nat

mutual

/-- `Auxpow`: the merged-mining payload (`wire/blockheader.go`). -/
inductive Auxpow (Tx : Type) : Type where
  | mk (CoinbaseTxn : Tx) (ParentBlockHash : List Nat)
       (CoinbaseBranch : MerkleBranch) (BlockchainBranch : MerkleBranch)
       (ParentBlock : BlockHeader Tx) : Auxpow Tx

/-- `BlockHeader`: version, previous-block hash, Merkle root, timestamp
(Unix seconds), difficulty bits, nonce and the optional AuxPoW payload
(a nil-able pointer in the source). -/
inductive BlockHeader (Tx : Type) : Type where
  | mk (Version : Int) (PrevBlock : List Nat) (MerkleRoot : List Nat)
       (Timestamp : Nat) (Bits : Nat) (Nonce : Nat)
       (Auxpow : Option (Auxpow Tx)) : BlockHeader Tx

end

def BlockHeader.Version : BlockHeader Tx → Int
  | .mk v _ _ _ _ _ _ => v

def BlockHeader.PrevBlock : BlockHeader Tx → List Nat
  | .mk _ p _ _ _ _ _ => p

def BlockHeader.MerkleRoot : BlockHeader Tx → List Nat
  | .mk _ _ m _ _ _ _ => m

def BlockHeader.Timestamp : BlockHeader Tx → Nat
  | .mk _ _ _ t _ _ _ => t

def BlockHeader.Bits : BlockHeader Tx → Nat
  | .mk _ _ _ _ b _ _ => b

def BlockHeader.Nonce : BlockHeader Tx → Nat
  | .mk _ _ _ _ _ n _ => n

/-- Alias used to name the payload type inside the `BlockHeader` namespace,
where the bare name `Auxpow` would resolve to the field accessor. -/
abbrev AuxpowPayload (Tx : Type) : Type := Auxpow Tx

def BlockHeader.Auxpow : BlockHeader Tx → Option (AuxpowPayload Tx)
  | .mk _ _ _ _ _ _ a => a

/-- Replace the `Auxpow` field (models `bh.Auxpow = &ap`). -/
def BlockHeader.setAuxpow : BlockHeader Tx → Option (AuxpowPayload Tx) → BlockHeader Tx
  | .mk v p m t b n _, a => .mk v p m t b n a

def Auxpow.CoinbaseTxn : Auxpow Tx → Tx
  | .mk c _ _ _ _ => c

def Auxpow.ParentBlockHash : Auxpow Tx → List Nat
  | .mk _ p _ _ _ => p

def Auxpow.CoinbaseBranch : Auxpow Tx → MerkleBranch
  | .mk _ _ c _ _ => c

def Auxpow.BlockchainBranch : Auxpow Tx → MerkleBranch
  | .mk _ _ _ b _ => b

def Auxpow.ParentBlock : Auxpow Tx → BlockHeader Tx
  | .mk _ _ _ _ p => p

/-- `MaxBlockHeaderPayloadNoAuxpow = 16 + 32 * 2 = 80`. -/
def MaxBlockHeaderPayloadNoAuxpow : Nat := 16 + 32 * 2

/-- `BlockVersionAuxpow = 1 << 8`. -/
def BlockVersionAuxpow : Nat := 256

/-- `BlockVersionChainStart = 1 << 16`. -/
def BlockVersionChainStart : Int := 65536

/-- `IsAuxpow`: `h.Version & BlockVersionAuxpow != 0` on the two's-complement
32-bit pattern of the version. -/
def BlockHeader.IsAuxpow (h : BlockHeader Tx) : Bool :=
  ((Int.toNat (h.Version % 4294967296)) &&& BlockVersionAuxpow) != 0

/-- `GetChainId`: `uint32(h.Version / BlockVersionChainStart)` — Go's `/` on
`int32` truncates toward zero (`Int.tdiv`), and the `uint32` conversion takes
the two's-complement residue. -/
def BlockHeader.GetChainId (h : BlockHeader Tx) : Nat :=
  Int.toNat ((Int.tdiv h.Version BlockVersionChainStart) % 4294967296)

/-! ## Header and AuxPoW codec (`wire/blockheader.go`)

The Go functions carry a protocol-version parameter `pver` that is never
consulted by any of the readers/writers below (§4.1: "currently unused for
structural differences"); it is omitted from the embedding. -/

/-- `writeBlockHeaderNoAuxpow`: the fixed 80-byte core form — version,
prevBlock, merkleRoot, `uint32(Timestamp.Unix())`, bits, nonce. -/
def writeBlockHeaderNoAuxpow (bh : BlockHeader Tx) : List Nat :=
  int32Bytes bh.Version ++ (bh.PrevBlock ++ (bh.MerkleRoot ++
    (u32LE bh.Timestamp ++ (u32LE bh.Bits ++ u32LE bh.Nonce))))

/-- `writeAuxpow`: writes nothing when `bh.Auxpow == nil`; otherwise the
stripped coinbase transaction, the parent block hash, the two branches (each
as varint count, that many 32-byte hashes, `int32` index) and the parent
header in its no-AuxPoW core form. -/
def writeAuxpow (c : TxCodec Tx) (bh : BlockHeader Tx) : List Nat :=
  match bh.Auxpow with
  | none => []
  | some ap =>
    c.serializeNoWitness ap.CoinbaseTxn ++ (ap.ParentBlockHash ++
    (WriteVarInt ap.CoinbaseBranch.Branch.length ++ (ap.CoinbaseBranch.Branch.flatten ++
    (int32Bytes ap.CoinbaseBranch.Index ++ (WriteVarInt ap.BlockchainBranch.Branch.length ++
    (ap.BlockchainBranch.Branch.flatten ++ (int32Bytes ap.BlockchainBranch.Index ++
    writeBlockHeaderNoAuxpow ap.ParentBlock)))))))

/-- `writeBlockHeader`: the core form, then the AuxPoW payload if and only if
the version's AuxPoW bit is set (`bh.IsAuxpow()`). -/
def writeBlockHeader (c : TxCodec Tx) (bh : BlockHeader Tx) : List Nat :=
  writeBlockHeaderNoAuxpow bh ++ (if bh.IsAuxpow then writeAuxpow c bh else [])

/-- The core-field read of `readBlockHeader` (its `readElements` call):
version, prevBlock, merkleRoot, timestamp (`uint32Time`), bits, nonce; the
`Auxpow` field of a freshly decoded header is `none`. -/
def readBlockHeaderCore (s : List Nat) : Except Unit (BlockHeader Tx × List Nat) :=
  step (readInt32 s) fun v s =>
  step (readBytes 32 s) fun prev s =>
  step (readBytes 32 s) fun mr s =>
  step (readU32 s) fun ts s =>
  step (readU32 s) fun bits s =>
  step (readU32 s) fun nonce s =>
  .ok (.mk v prev mr ts bits nonce none, s)

/-- Read `n` consecutive 32-byte hashes (the branch-filling loops of
`readAuxpow`). -/
def readNHashes : Nat → List Nat → Except Unit (List (List Nat) × List Nat)
  | 0, s => .ok ([], s)
  | n + 1, s =>
    step (readBytes 32 s) fun h s =>
    step (readNHashes n s) fun hs s =>
    .ok (h :: hs, s)

/-- `readAuxpow`: returns the header unchanged when the AuxPoW bit is clear;
otherwise decodes the coinbase transaction, parent block hash, both branches
and the parent header core, attaching the payload only after every read
succeeded (`bh.Auxpow = &ap` is the last statement of the Go function, so no
failure path ever attaches a payload). -/
def readAuxpow (c : TxCodec Tx) (bh : BlockHeader Tx) (s : List Nat) :
    Except Unit (BlockHeader Tx × List Nat) :=
  if bh.IsAuxpow = false then .ok (bh, s)
  else
    step (c.deserializeNoWitness s) fun txn s =>
    step (readBytes 32 s) fun pbh s =>
    step (ReadVarInt s) fun cnt s =>
    step (readNHashes cnt s) fun cb s =>
    step (readInt32 s) fun cbIdx s =>
    step (ReadVarInt s) fun cnt2 s =>
    step (readNHashes cnt2 s) fun bc s =>
    step (readInt32 s) fun bcIdx s =>
    step (readBlockHeaderCore s) fun parent s =>
    .ok (bh.setAuxpow (some (.mk txn pbh (.mk cb cbIdx) (.mk bc bcIdx) parent)), s)

/-- `readBlockHeader`: the core fields followed by `readAuxpow`. -/
def readBlockHeader (c : TxCodec Tx) (s : List Nat) :
    Except Unit (BlockHeader Tx × List Nat) :=
  step (readBlockHeaderCore s) fun bh s => readAuxpow c bh s

/-- `Auxpow.SerializeSize`. -/
def Auxpow.SerializeSize (c : TxCodec Tx) (a : Auxpow Tx) : Nat :=
  c.serializeSizeStripped a.CoinbaseTxn +
    32 * (1 + a.CoinbaseBranch.Branch.length + a.BlockchainBranch.Branch.length) +
    VarIntSerializeSize a.CoinbaseBranch.Branch.length +
    VarIntSerializeSize a.BlockchainBranch.Branch.length +
    4 * 2 +
    MaxBlockHeaderPayloadNoAuxpow

/-- `BlockHeader.SerializeSize`: 80 bytes when the AuxPoW bit is clear or the
payload is nil, else 80 plus the payload size. -/
def BlockHeader.SerializeSize (c : TxCodec Tx) (h : BlockHeader Tx) : Nat :=
  if h.IsAuxpow = false then MaxBlockHeaderPayloadNoAuxpow
  else
    match h.Auxpow with
    | none => MaxBlockHeaderPayloadNoAuxpow
    | some a => MaxBlockHeaderPayloadNoAuxpow + a.SerializeSize c

/-- `GetBlockHeaderSize`: decodes a header from the raw bytes, discarding the
error, and returns the `SerializeSize` of the result. On every failure path of
`readBlockHeader` the decoded-into header's `Auxpow` field was never assigned
(`readAuxpow` attaches it only as its final step), so the partially-filled
header's `SerializeSize` is 80 regardless of which prefix of the core fields
was already stored — hence the error branch returns 80. -/
def GetBlockHeaderSize (c : TxCodec Tx) (raw : List Nat) : Nat :=
  match readBlockHeader c raw with
  | .ok (h, _) => h.SerializeSize c
  | .error _ => MaxBlockHeaderPayloadNoAuxpow

/-! ## Hash engine

The two cryptographic primitives (`chainhash.DoubleHashH`, `scrypt.Key`) are
external collaborators; the derivations are parameterized over them. -/

/-- `copy(powHash[:], scryptHash)`: the 32-byte destination starts zeroed and
receives `min 32 (length k)` bytes of `k`. -/
def copyHash (k : List Nat) : List Nat :=
  (k ++ List.replicate 32 0).take 32

/-- `BlockHash`: the double hash of the 80-byte no-AuxPoW core serialization,
for any double-hash collaborator `dh`. -/
def BlockHash (dh : List Nat → List Nat) (h : BlockHeader Tx) : List Nat :=
  dh (writeBlockHeaderNoAuxpow h)

/-- `PowHash`: scrypt over the no-AuxPoW core serialization used as both
password and salt, with parameters `N = 1024, r = 1, p = 1, keyLen = 32`, for
any scrypt collaborator `scryptKey`. -/
def PowHash (scryptKey : List Nat → List Nat → Nat → Nat → Nat → Nat → Except Unit (List Nat))
    (h : BlockHeader Tx) : Except Unit (List Nat) :=
  match scryptKey (writeBlockHeaderNoAuxpow h) (writeBlockHeaderNoAuxpow h) 1024 1 1 32 with
  | .error e => .error e
  | .ok k => .ok (copyHash k)

/-! ## Merkle branch -/

/-- The traversal loop of `MerkleBranch.Check`: `idx & 1` selects the
concatenation order (`idx % 2 = 1`, Euclidean remainder, is the two's-complement low bit),
the running hash becomes the double hash of the concatenation, and the index
is arithmetically shifted right (`idx / 2`, Euclidean division, which is
floor division for the positive divisor 2 — Go's `>>` on a signed value). -/
def checkLoop (dh : List Nat → List Nat) :
    List (List Nat) → List Nat → Int → List Nat
  | [], thash, _ => thash
  | it :: rest, thash, idx =>
    checkLoop dh rest
      (dh (if idx % 2 = 1 then it ++ thash else thash ++ it))
      (idx / 2)

/-- `MerkleBranch.Check`: the all-zero hash when `Index == -1`, else the
branch traversal starting from the given leaf hash. -/
def MerkleBranch.Check (dh : List Nat → List Nat) (b : MerkleBranch)
    (hash : List Nat) : List Nat :=
  if b.Index = -1 then List.replicate 32 0
  else checkLoop dh b.Branch hash b.Index

/-- The in-place byte reversal of `CheckAndRevert`
(`for i, j := 0, 31; i < j; { swap }` over the 32-byte array): byte `i` of
the result is byte `31 - i` of the input. -/
def revertHash (t : List Nat) : List Nat :=
  (List.range 32).map fun i => t.getD (32 - 1 - i) 0

/-- `MerkleBranch.CheckAndRevert`: `Check`, then reverse the byte order of
the 32-byte result. -/
def MerkleBranch.CheckAndRevert (dh : List Nat → List Nat) (b : MerkleBranch)
    (hash : List Nat) : List Nat :=
  revertHash (b.Check dh hash)

/-! ## Accessor reduction lemmas -/

@[simp] theorem BlockHeader.Version_mk (v : Int) (p m : List Nat) (t b n : Nat)
    (a : Option (AuxpowPayload Tx)) : (BlockHeader.mk v p m t b n a).Version = v := rfl

@[simp] theorem BlockHeader.PrevBlock_mk (v : Int) (p m : List Nat) (t b n : Nat)
    (a : Option (AuxpowPayload Tx)) : (BlockHeader.mk v p m t b n a).PrevBlock = p := rfl

@[simp] theorem BlockHeader.MerkleRoot_mk (v : Int) (p m : List Nat) (t b n : Nat)
    (a : Option (AuxpowPayload Tx)) : (BlockHeader.mk v p m t b n a).MerkleRoot = m := rfl

@[simp] theorem BlockHeader.Timestamp_mk (v : Int) (p m : List Nat) (t b n : Nat)
    (a : Option (AuxpowPayload Tx)) : (BlockHeader.mk v p m t b n a).Timestamp = t := rfl

@[simp] theorem BlockHeader.Bits_mk (v : Int) (p m : List Nat) (t b n : Nat)
    (a : Option (AuxpowPayload Tx)) : (BlockHeader.mk v p m t b n a).Bits = b := rfl

@[simp] theorem BlockHeader.Nonce_mk (v : Int) (p m : List Nat) (t b n : Nat)
    (a : Option (AuxpowPayload Tx)) : (BlockHeader.mk v p m t b n a).Nonce = n := rfl

@[simp] theorem BlockHeader.Auxpow_mk (v : Int) (p m : List Nat) (t b n : Nat)
    (a : Option (AuxpowPayload Tx)) : (BlockHeader.mk v p m t b n a).Auxpow = a := rfl

@[simp] theorem BlockHeader.setAuxpow_mk (v : Int) (p m : List Nat) (t b n : Nat)
    (a a' : Option (AuxpowPayload Tx)) :
    (BlockHeader.mk v p m t b n a).setAuxpow a' = .mk v p m t b n a' := rfl

@[simp] theorem Auxpow.CoinbaseTxn_mk (c : Tx) (p : List Nat) (cb bc : MerkleBranch)
    (pb : BlockHeader Tx) : (Auxpow.mk c p cb bc pb).CoinbaseTxn = c := rfl

@[simp] theorem Auxpow.ParentBlockHash_mk (c : Tx) (p : List Nat) (cb bc : MerkleBranch)
    (pb : BlockHeader Tx) : (Auxpow.mk c p cb bc pb).ParentBlockHash = p := rfl

@[simp] theorem Auxpow.CoinbaseBranch_mk (c : Tx) (p : List Nat) (cb bc : MerkleBranch)
    (pb : BlockHeader Tx) : (Auxpow.mk c p cb bc pb).CoinbaseBranch = cb := rfl

@[simp] theorem Auxpow.BlockchainBranch_mk (c : Tx) (p : List Nat) (cb bc : MerkleBranch)
    (pb : BlockHeader Tx) : (Auxpow.mk c p cb bc pb).BlockchainBranch = bc := rfl

@[simp] theorem Auxpow.ParentBlock_mk (c : Tx) (p : List Nat) (cb bc : MerkleBranch)
    (pb : BlockHeader Tx) : (Auxpow.mk c p cb bc pb).ParentBlock = pb := rfl

/-- `setAuxpow` of the field's current value is the identity. -/
theorem BlockHeader.setAuxpow_self (h : BlockHeader Tx) :
    h.setAuxpow h.Auxpow = h := by
  cases h; rfl

/-- `setAuxpow` does not touch the version, so the AuxPoW flag is stable. -/
@[simp] theorem BlockHeader.isAuxpow_setAuxpow (h : BlockHeader Tx)
    (a : Option (AuxpowPayload Tx)) : (h.setAuxpow a).IsAuxpow = h.IsAuxpow := by
  cases h; rfl

/-! ## Primitive round-trip and length lemmas -/

theorem readU16_u16LE (n : Nat) (hn : n < 65536) (r : List Nat) :
    readU16 (u16LE n ++ r) = .ok (n, r) := by
  simp only [u16LE, List.cons_append, List.nil_append, readU16]
  have : n % 256 + 256 * (n / 256 % 256) = n := by omega
  rw [this]

theorem readU32_u32LE (n : Nat) (hn : n < 4294967296) (r : List Nat) :
    readU32 (u32LE n ++ r) = .ok (n, r) := by
  simp only [u32LE, List.cons_append, List.nil_append, readU32]
  have : n % 256 + 256 * (n / 256 % 256 + 256 * (n / 65536 % 256 +
      256 * (n / 16777216 % 256))) = n := by omega
  rw [this]

theorem readU64_u64LE (n : Nat) (hn : n < 18446744073709551616) (r : List Nat) :
    readU64 (u64LE n ++ r) = .ok (n, r) := by
  simp only [u64LE, List.cons_append, List.nil_append, readU64]
  have : n % 256 + 256 * (n / 256 % 256 + 256 * (n / 65536 % 256 + 256 *
      (n / 16777216 % 256 + 256 * (n / 4294967296 % 256 + 256 *
      (n / 1099511627776 % 256 + 256 * (n / 281474976710656 % 256 + 256 *
      (n / 72057594037927936 % 256))))))) = n := by omega
  rw [this]

theorem toInt32_int32Bytes (v : Int) (h1 : -2147483648 ≤ v) (h2 : v < 2147483648) :
    toInt32 (Int.toNat (v % 4294967296)) = v := by
  simp only [toInt32]
  split <;> omega

theorem readInt32_int32Bytes (v : Int) (h1 : -2147483648 ≤ v) (h2 : v < 2147483648)
    (r : List Nat) : readInt32 (int32Bytes v ++ r) = .ok (v, r) := by
  have hm : Int.toNat (v % 4294967296) < 4294967296 := by omega
  rw [int32Bytes, readInt32, readU32_u32LE _ hm]
  show Except.ok (toInt32 (Int.toNat (v % 4294967296)), r) = Except.ok (v, r)
  rw [toInt32_int32Bytes v h1 h2]

theorem readBytes_exact (b : List Nat) (n : Nat) (hb : b.length = n) (r : List Nat) :
    readBytes n (b ++ r) = .ok (b, r) := by
  subst hb
  have hle : b.length ≤ (b ++ r).length := by simp
  simp [readBytes, hle, List.take_left, List.drop_left]

theorem readVarInt_writeVarInt (n : Nat) (hn : n < 18446744073709551616)
    (r : List Nat) : ReadVarInt (WriteVarInt n ++ r) = .ok (n, r) := by
  by_cases h1 : n < 253
  · have h255 : ¬ n = 255 := by omega
    have h254 : ¬ n = 254 := by omega
    have h253 : ¬ n = 253 := by omega
    simp [WriteVarInt, h1, ReadVarInt, h255, h254, h253]
  · by_cases h2 : n ≤ 65535
    · simp only [WriteVarInt, if_neg h1, if_pos h2, List.cons_append, ReadVarInt]
      norm_num
      exact readU16_u16LE n (by omega) r
    · by_cases h3 : n ≤ 4294967295
      · simp only [WriteVarInt, if_neg h1, if_neg h2, if_pos h3, List.cons_append, ReadVarInt]
        norm_num
        exact readU32_u32LE n (by omega) r
      · simp only [WriteVarInt, if_neg h1, if_neg h2, if_neg h3, List.cons_append, ReadVarInt]
        norm_num
        exact readU64_u64LE n (by omega) r

@[simp] theorem u16LE_length (n : Nat) : (u16LE n).length = 2 := rfl

@[simp] theorem u32LE_length (n : Nat) : (u32LE n).length = 4 := rfl

@[simp] theorem u64LE_length (n : Nat) : (u64LE n).length = 8 := rfl

@[simp] theorem int32Bytes_length (v : Int) : (int32Bytes v).length = 4 := rfl

theorem writeVarInt_length (n : Nat) :
    (WriteVarInt n).length = VarIntSerializeSize n := by
  simp only [WriteVarInt, VarIntSerializeSize]
  split <;> [rfl; split <;> [rfl; split <;> rfl]]

/-- The total length of `n` concatenated 32-byte hashes. -/
theorem flatten_length_of_all32 (hs : List (List Nat))
    (h : ∀ x ∈ hs, x.length = 32) : hs.flatten.length = 32 * hs.length := by
  induction hs with
  | nil => simp
  | cons a t ih =>
    have ha : a.length = 32 := h a (by simp)
    have ht := ih fun x hx => h x (by simp [hx])
    simp [List.flatten_cons, ha, ht]
    ring

theorem readNHashes_flatten (hs : List (List Nat))
    (h : ∀ x ∈ hs, x.length = 32) (r : List Nat) :
    readNHashes hs.length (hs.flatten ++ r) = .ok (hs, r) := by
  induction hs with
  | nil => simp [readNHashes]
  | cons a t ih =>
    have ha : a.length = 32 := h a (by simp)
    have ht := ih fun x hx => h x (by simp [hx])
    simp only [List.length_cons, List.flatten_cons, readNHashes, List.append_assoc]
    rw [readBytes_exact a 32 ha, step_ok, ht, step_ok]

/-! ## Well-formedness of headers and payloads

These record the data-model invariants of §3: hash values are 32 bytes,
`version` and branch indices are signed 32-bit, `timestamp`/`bits`/`nonce`
fit `uint32` ("values beyond the unsigned-32 range are out of contract"),
and branch lengths fit the `uint64` varint count. -/

abbrev WFcore (h : BlockHeader Tx) : Prop :=
  -2147483648 ≤ h.Version ∧ h.Version < 2147483648 ∧
  h.PrevBlock.length = 32 ∧ h.MerkleRoot.length = 32 ∧
  h.Timestamp < 4294967296 ∧ h.Bits < 4294967296 ∧ h.Nonce < 4294967296

abbrev WFbranch (b : MerkleBranch) : Prop :=
  (∀ x ∈ b.Branch, x.length = 32) ∧ b.Branch.length < 18446744073709551616 ∧
  -2147483648 ≤ b.Index ∧ b.Index < 2147483648

/-- Payload invariants, including the one-level-nesting invariant of §2/§9:
"a parent header never itself carries AuxPow in this design". -/
def WFaux (ap : Auxpow Tx) : Prop :=
  ap.ParentBlockHash.length = 32 ∧ WFbranch ap.CoinbaseBranch ∧
  WFbranch ap.BlockchainBranch ∧ WFcore ap.ParentBlock ∧
  ap.ParentBlock.Auxpow = none

/-- Lawfulness of an external transaction codec: deserialization undoes
serialization and returns exactly the trailing rest. -/
def TxRoundTrips (c : TxCodec Tx) : Prop :=
  ∀ t rest, c.deserializeNoWitness (c.serializeNoWitness t ++ rest) = .ok (t, rest)

/-- Lawfulness of an external transaction codec: the stripped size equals the
length of the stripped serialization. -/
def TxSizeOk (c : TxCodec Tx) : Prop :=
  ∀ t, c.serializeSizeStripped t = (c.serializeNoWitness t).length

/-! ## Round-trip lemmas for the header codec -/

/-- Reading back the 80-byte core form reproduces the core fields and leaves
`Auxpow = none`. -/
theorem readCore_writeCore (h : BlockHeader Tx) (hwf : WFcore h) (r : List Nat) :
    readBlockHeaderCore (writeBlockHeaderNoAuxpow h ++ r) =
      .ok (h.setAuxpow none, r) := by
  obtain ⟨v, p, m, t, b, n, a⟩ := h
  obtain ⟨hv1, hv2, hp, hm, ht, hb, hn⟩ := hwf
  simp only [BlockHeader.Version_mk, BlockHeader.PrevBlock_mk, BlockHeader.MerkleRoot_mk,
    BlockHeader.Timestamp_mk, BlockHeader.Bits_mk, BlockHeader.Nonce_mk] at hv1 hv2 hp hm ht hb hn
  simp only [writeBlockHeaderNoAuxpow, readBlockHeaderCore, BlockHeader.Version_mk,
    BlockHeader.PrevBlock_mk, BlockHeader.MerkleRoot_mk, BlockHeader.Timestamp_mk,
    BlockHeader.Bits_mk, BlockHeader.Nonce_mk, BlockHeader.setAuxpow_mk, List.append_assoc,
    readInt32_int32Bytes v hv1 hv2, readBytes_exact p 32 hp, readBytes_exact m 32 hm,
    readU32_u32LE t ht, readU32_u32LE b hb, readU32_u32LE n hn, step_ok]

/-- Reading back a written AuxPoW payload attaches exactly that payload. -/
theorem readAuxpow_writeAuxpow (c : TxCodec Tx) (hc : TxRoundTrips c)
    (h0 h : BlockHeader Tx) (ap : Auxpow Tx) (hflag : h0.IsAuxpow = true)
    (hap : h.Auxpow = some ap) (hwf : WFaux ap) (r : List Nat) :
    readAuxpow c h0 (writeAuxpow c h ++ r) = .ok (h0.setAuxpow (some ap), r) := by
  obtain ⟨txn, pbh, cb, bc, parent⟩ := ap
  obtain ⟨cbB, cbI⟩ := cb
  obtain ⟨bcB, bcI⟩ := bc
  obtain ⟨hpbh, ⟨hcb32, hcbLen, hcbI1, hcbI2⟩, ⟨hbc32, hbcLen, hbcI1, hbcI2⟩, hpwf, hpnone⟩ := hwf
  simp only [Auxpow.ParentBlockHash_mk, Auxpow.CoinbaseBranch_mk, Auxpow.BlockchainBranch_mk,
    Auxpow.ParentBlock_mk] at hpbh hcb32 hcbLen hcbI1 hcbI2 hbc32 hbcLen hbcI1 hbcI2 hpwf hpnone
  rw [readAuxpow, if_neg (by simp [hflag])]
  simp only [writeAuxpow, hap, Auxpow.CoinbaseTxn_mk, Auxpow.ParentBlockHash_mk,
    Auxpow.CoinbaseBranch_mk, Auxpow.BlockchainBranch_mk, Auxpow.ParentBlock_mk,
    List.append_assoc]
  rw [hc txn, step_ok, readBytes_exact pbh 32 hpbh, step_ok,
    readVarInt_writeVarInt cbB.length hcbLen, step_ok, readNHashes_flatten cbB hcb32, step_ok,
    readInt32_int32Bytes cbI hcbI1 hcbI2, step_ok,
    readVarInt_writeVarInt bcB.length hbcLen, step_ok, readNHashes_flatten bcB hbc32, step_ok,
    readInt32_int32Bytes bcI hbcI1 hbcI2, step_ok,
    readCore_writeCore parent hpwf, step_ok]
  rw [← hpnone, BlockHeader.setAuxpow_self parent]

/-- Full encode/decode round trip, flag-clear case. -/
theorem roundTrip_noAux (c : TxCodec Tx) (h : BlockHeader Tx) (hwf : WFcore h)
    (hflag : h.IsAuxpow = false) (hnone : h.Auxpow = none) :
    readBlockHeader c (writeBlockHeader c h) = .ok (h, []) := by
  rw [writeBlockHeader, if_neg (by simp [hflag]), List.append_nil, readBlockHeader,
    ← List.append_nil (writeBlockHeaderNoAuxpow h), readCore_writeCore h hwf, step_ok,
    readAuxpow, if_pos (by simp [hflag]), ← hnone, BlockHeader.setAuxpow_self h]

/-- Full encode/decode round trip, flag-set populated-payload case. -/
theorem roundTrip_aux (c : TxCodec Tx) (hc : TxRoundTrips c) (h : BlockHeader Tx)
    (ap : Auxpow Tx) (hwf : WFcore h) (hflag : h.IsAuxpow = true)
    (hap : h.Auxpow = some ap) (hwfa : WFaux ap) :
    readBlockHeader c (writeBlockHeader c h) = .ok (h, []) := by
  rw [writeBlockHeader, if_pos hflag, readBlockHeader, readCore_writeCore h hwf, step_ok,
    ← List.append_nil (writeAuxpow c h),
    readAuxpow_writeAuxpow c hc (h.setAuxpow none) h ap (by simp [hflag]) hap hwfa]
  cases h
  simp only [BlockHeader.Auxpow_mk] at hap
  simp [hap]

/-! ## Size lemmas -/

theorem writeCore_length (h : BlockHeader Tx) (hp : h.PrevBlock.length = 32)
    (hm : h.MerkleRoot.length = 32) :
    (writeBlockHeaderNoAuxpow h).length = 80 := by
  simp [writeBlockHeaderNoAuxpow, hp, hm]

/-- `Auxpow.SerializeSize` equals the byte count `writeAuxpow` produces
(§4.3: "a required invariant, not an approximation"). -/
theorem writeAuxpow_length (c : TxCodec Tx) (hsz : TxSizeOk c)
    (h : BlockHeader Tx) (ap : Auxpow Tx) (hap : h.Auxpow = some ap)
    (hwf : WFaux ap) : (writeAuxpow c h).length = ap.SerializeSize c := by
  obtain ⟨hpbh, ⟨hcb32, hcbLen, hcbI1, hcbI2⟩, ⟨hbc32, hbcLen, hbcI1, hbcI2⟩, hpwf, hpnone⟩ := hwf
  obtain ⟨hw1, hw2, hwp, hwm, hw3, hw4, hw5⟩ := hpwf
  simp only [writeAuxpow, hap, Auxpow.SerializeSize, List.length_append, hsz ap.CoinbaseTxn,
    hpbh, writeVarInt_length, int32Bytes_length,
    flatten_length_of_all32 ap.CoinbaseBranch.Branch hcb32,
    flatten_length_of_all32 ap.BlockchainBranch.Branch hbc32,
    writeCore_length ap.ParentBlock hwp hwm, MaxBlockHeaderPayloadNoAuxpow]
  ring

theorem serializeSize_of_flag_clear (c : TxCodec Tx) (h : BlockHeader Tx)
    (hflag : h.IsAuxpow = false) : h.SerializeSize c = 80 := by
  simp [BlockHeader.SerializeSize, hflag, MaxBlockHeaderPayloadNoAuxpow]

theorem serializeSize_of_none (c : TxCodec Tx) (h : BlockHeader Tx)
    (hnone : h.Auxpow = none) : h.SerializeSize c = 80 := by
  by_cases hflag : h.IsAuxpow = false
  · exact serializeSize_of_flag_clear c h hflag
  · simp [BlockHeader.SerializeSize, hflag, hnone, MaxBlockHeaderPayloadNoAuxpow]

theorem serializeSize_of_some (c : TxCodec Tx) (h : BlockHeader Tx) (ap : Auxpow Tx)
    (hflag : h.IsAuxpow = true) (hap : h.Auxpow = some ap) :
    h.SerializeSize c = 80 + ap.SerializeSize c := by
  simp [BlockHeader.SerializeSize, hflag, hap, MaxBlockHeaderPayloadNoAuxpow]

/-! ## Truncation intolerance (§7 "Truncated input")

`Consumes R` captures the decode-error contract of a stream reader `R`:
whenever `R` succeeds it has consumed a definite prefix of the stream
(success is replayable with any other trailing rest), and rerunning `R` on
any strict truncation of that consumed prefix fails with a decode error. -/

def Consumes (R : List Nat → Except Unit (α × List Nat)) : Prop :=
  ∀ s a rest, R s = .ok (a, rest) →
    ∃ pre, s = pre ++ rest ∧ (∀ r2, R (pre ++ r2) = .ok (a, r2)) ∧
      ∀ k, k < pre.length → R (pre.take k) = .error ()

/-- A reader that consumes nothing and always succeeds. -/
theorem consumes_pure (a0 : α) : Consumes (fun s => .ok (a0, s)) := by
  intro s a rest hok
  simp only [Except.ok.injEq, Prod.mk.injEq] at hok
  obtain ⟨rfl, rfl⟩ := hok
  exact ⟨[], rfl, fun r2 => rfl, fun k hk => absurd hk (by simp)⟩

/-- `take` distributes over append. -/
theorem take_append_split (l1 l2 : List α) (k : Nat) :
    (l1 ++ l2).take k = l1.take k ++ l2.take (k - l1.length) := by
  induction l1 generalizing k with
  | nil => simp
  | cons a t ih =>
    cases k with
    | zero => simp
    | succ k' => simp [List.take_succ_cons, ih k']

/-- Sequencing two consuming readers consumes the concatenation of their
prefixes; truncating anywhere inside it fails. -/
theorem Consumes.comp {R : List Nat → Except Unit (α × List Nat)}
    {f : α → List Nat → Except Unit (β × List Nat)}
    (hR : Consumes R) (hf : ∀ a, Consumes (f a)) :
    Consumes (fun s => step (R s) f) := by
  intro s b rest hok
  simp only [] at hok
  cases hRs : R s with
  | error e => rw [hRs] at hok; simp at hok
  | ok p =>
    obtain ⟨a, s1⟩ := p
    rw [hRs, step_ok] at hok
    obtain ⟨pre1, hs, hrep1, htr1⟩ := hR s a s1 hRs
    obtain ⟨pre2, hs1, hrep2, htr2⟩ := hf a s1 b rest hok
    subst hs1
    subst hs
    refine ⟨pre1 ++ pre2, by simp, ?_, ?_⟩
    · intro r2
      simp only [List.append_assoc]
      rw [hrep1 (pre2 ++ r2), step_ok, hrep2 r2]
    · intro k hk
      show step (R ((pre1 ++ pre2).take k)) f = Except.error ()
      rw [take_append_split]
      by_cases hk1 : k < pre1.length
      · have h2 : pre2.take (k - pre1.length) = [] := by
          have : k - pre1.length = 0 := by omega
          simp [this]
        rw [h2, List.append_nil, htr1 k hk1, step_error]
      · have hle : pre1.length ≤ k := by omega
        rw [List.take_of_length_le hle]
        rw [hrep1 (pre2.take (k - pre1.length)), step_ok]
        apply htr2
        simp only [List.length_append] at hk
        omega

theorem consumes_readU16 : Consumes readU16 := by
  intro s a rest hok
  rcases s with _ | ⟨b0, _ | ⟨b1, tail⟩⟩
  · exact Except.noConfusion hok
  · exact Except.noConfusion hok
  · simp only [readU16, Except.ok.injEq, Prod.mk.injEq] at hok
    obtain ⟨rfl, rfl⟩ := hok
    refine ⟨[b0, b1], rfl, fun r2 => rfl, ?_⟩
    intro k hk
    have hk2 : k < 2 := by simpa using hk
    interval_cases k <;> rfl

theorem consumes_readU32 : Consumes readU32 := by
  intro s a rest hok
  rcases s with _ | ⟨b0, _ | ⟨b1, _ | ⟨b2, _ | ⟨b3, tail⟩⟩⟩⟩
  · exact Except.noConfusion hok
  · exact Except.noConfusion hok
  · exact Except.noConfusion hok
  · exact Except.noConfusion hok
  · simp only [readU32, Except.ok.injEq, Prod.mk.injEq] at hok
    obtain ⟨rfl, rfl⟩ := hok
    refine ⟨[b0, b1, b2, b3], rfl, fun r2 => rfl, ?_⟩
    intro k hk
    have hk2 : k < 4 := by simpa using hk
    interval_cases k <;> rfl

theorem consumes_readU64 : Consumes readU64 := by
  intro s a rest hok
  rcases s with _ | ⟨b0, _ | ⟨b1, _ | ⟨b2, _ | ⟨b3, _ | ⟨b4, _ | ⟨b5, _ | ⟨b6, _ | ⟨b7, tail⟩⟩⟩⟩⟩⟩⟩⟩
  · exact Except.noConfusion hok
  · exact Except.noConfusion hok
  · exact Except.noConfusion hok
  · exact Except.noConfusion hok
  · exact Except.noConfusion hok
  · exact Except.noConfusion hok
  · exact Except.noConfusion hok
  · exact Except.noConfusion hok
  · simp only [readU64, Except.ok.injEq, Prod.mk.injEq] at hok
    obtain ⟨rfl, rfl⟩ := hok
    refine ⟨[b0, b1, b2, b3, b4, b5, b6, b7], rfl, fun r2 => rfl, ?_⟩
    intro k hk
    have hk2 : k < 8 := by simpa using hk
    interval_cases k <;> rfl

theorem consumes_readInt32 : Consumes readInt32 := by
  intro s a rest hok
  rw [readInt32] at hok
  cases hu : readU32 s with
  | error e => rw [hu] at hok; exact Except.noConfusion hok
  | ok p =>
    obtain ⟨m, rest'⟩ := p
    rw [hu] at hok
    simp only [Except.ok.injEq, Prod.mk.injEq] at hok
    obtain ⟨rfl, rfl⟩ := hok
    obtain ⟨pre, rfl, hrep, htr⟩ := consumes_readU32 s m rest' hu
    refine ⟨pre, rfl, ?_, ?_⟩
    · intro r2; rw [readInt32, hrep r2]
    · intro k hk; rw [readInt32, htr k hk]

theorem consumes_readBytes (n : Nat) : Consumes (readBytes n) := by
  intro s a rest hok
  rw [readBytes] at hok
  split at hok
  case isTrue hle =>
    simp only [Except.ok.injEq, Prod.mk.injEq] at hok
    obtain ⟨rfl, rfl⟩ := hok
    have hlen : (s.take n).length = n := by simp [List.length_take]; omega
    refine ⟨s.take n, (List.take_append_drop n s).symm, ?_, ?_⟩
    · intro r2
      exact readBytes_exact (s.take n) n hlen r2
    · intro k hk
      rw [readBytes, if_neg]
      have : ((s.take n).take k).length = k := by
        simp only [List.length_take] at hk ⊢
        omega
      omega
  case isFalse => exact Except.noConfusion hok

theorem consumes_readVarInt : Consumes ReadVarInt := by
  intro s a rest hok
  rcases s with _ | ⟨d, tail⟩
  · exact Except.noConfusion hok
  · rw [ReadVarInt] at hok
    by_cases h255 : d = 255
    · rw [if_pos h255] at hok
      obtain ⟨pre, rfl, hrep, htr⟩ := consumes_readU64 tail a rest hok
      refine ⟨d :: pre, rfl, ?_, ?_⟩
      · intro r2
        show ReadVarInt (d :: (pre ++ r2)) = .ok (a, r2)
        rw [ReadVarInt, if_pos h255]
        exact hrep r2
      · intro k hk
        cases k with
        | zero => rfl
        | succ j =>
          show ReadVarInt (d :: pre.take j) = .error ()
          rw [ReadVarInt, if_pos h255]
          exact htr j (by simpa using hk)
    · rw [if_neg h255] at hok
      by_cases h254 : d = 254
      · rw [if_pos h254] at hok
        obtain ⟨pre, rfl, hrep, htr⟩ := consumes_readU32 tail a rest hok
        refine ⟨d :: pre, rfl, ?_, ?_⟩
        · intro r2
          show ReadVarInt (d :: (pre ++ r2)) = .ok (a, r2)
          rw [ReadVarInt, if_neg h255, if_pos h254]
          exact hrep r2
        · intro k hk
          cases k with
          | zero => rfl
          | succ j =>
            show ReadVarInt (d :: pre.take j) = .error ()
            rw [ReadVarInt, if_neg h255, if_pos h254]
            exact htr j (by simpa using hk)
      · rw [if_neg h254] at hok
        by_cases h253 : d = 253
        · rw [if_pos h253] at hok
          obtain ⟨pre, rfl, hrep, htr⟩ := consumes_readU16 tail a rest hok
          refine ⟨d :: pre, rfl, ?_, ?_⟩
          · intro r2
            show ReadVarInt (d :: (pre ++ r2)) = .ok (a, r2)
            rw [ReadVarInt, if_neg h255, if_neg h254, if_pos h253]
            exact hrep r2
          · intro k hk
            cases k with
            | zero => rfl
            | succ j =>
              show ReadVarInt (d :: pre.take j) = .error ()
              rw [ReadVarInt, if_neg h255, if_neg h254, if_pos h253]
              exact htr j (by simpa using hk)
        · rw [if_neg h253] at hok
          simp only [Except.ok.injEq, Prod.mk.injEq] at hok
          obtain ⟨rfl, rfl⟩ := hok
          refine ⟨[d], rfl, ?_, ?_⟩
          · intro r2
            show ReadVarInt (d :: r2) = .ok (d, r2)
            rw [ReadVarInt, if_neg h255, if_neg h254, if_neg h253]
          · intro k hk
            have hk2 : k = 0 := by simpa using hk
            subst hk2
            rfl

theorem consumes_readNHashes (n : Nat) : Consumes (readNHashes n) := by
  induction n with
  | zero =>
    intro s a rest hok
    exact consumes_pure [] s a rest hok
  | succ n ih =>
    have h : Consumes (fun s => step (readBytes 32 s) fun h s =>
        step (readNHashes n s) fun hs s => .ok (h :: hs, s)) :=
      Consumes.comp (consumes_readBytes 32) fun h =>
        Consumes.comp ih fun hs => consumes_pure (h :: hs)
    exact h

theorem consumes_readCore {Tx : Type} :
    Consumes (fun s => (readBlockHeaderCore s : Except Unit (BlockHeader Tx × List Nat))) :=
  Consumes.comp consumes_readInt32 fun v =>
  Consumes.comp (consumes_readBytes 32) fun prev =>
  Consumes.comp (consumes_readBytes 32) fun mr =>
  Consumes.comp consumes_readU32 fun ts =>
  Consumes.comp consumes_readU32 fun bits =>
  Consumes.comp consumes_readU32 fun nonce =>
  consumes_pure (BlockHeader.mk v prev mr ts bits nonce none)

theorem consumes_readAuxpow (c : TxCodec Tx)
    (hdes : Consumes c.deserializeNoWitness) (bh : BlockHeader Tx) :
    Consumes (readAuxpow c bh) := by
  by_cases hflag : bh.IsAuxpow = false
  · have heq : readAuxpow c bh = fun s => .ok (bh, s) := by
      funext s; rw [readAuxpow, if_pos hflag]
    rw [heq]
    exact consumes_pure bh
  · have heq : readAuxpow c bh = fun s =>
        step (c.deserializeNoWitness s) fun txn s =>
        step (readBytes 32 s) fun pbh s =>
        step (ReadVarInt s) fun cnt s =>
        step (readNHashes cnt s) fun cb s =>
        step (readInt32 s) fun cbIdx s =>
        step (ReadVarInt s) fun cnt2 s =>
        step (readNHashes cnt2 s) fun bc s =>
        step (readInt32 s) fun bcIdx s =>
        step (readBlockHeaderCore s) fun parent s =>
        .ok (bh.setAuxpow (some (.mk txn pbh (.mk cb cbIdx) (.mk bc bcIdx) parent)), s) := by
      funext s; rw [readAuxpow, if_neg hflag]
    rw [heq]
    exact Consumes.comp hdes fun txn =>
      Consumes.comp (consumes_readBytes 32) fun pbh =>
      Consumes.comp consumes_readVarInt fun cnt =>
      Consumes.comp (consumes_readNHashes cnt) fun cb =>
      Consumes.comp consumes_readInt32 fun cbIdx =>
      Consumes.comp consumes_readVarInt fun cnt2 =>
      Consumes.comp (consumes_readNHashes cnt2) fun bc =>
      Consumes.comp consumes_readInt32 fun bcIdx =>
      Consumes.comp consumes_readCore fun parent =>
      consumes_pure (bh.setAuxpow (some (.mk txn pbh (.mk cb cbIdx) (.mk bc bcIdx) parent)))

theorem consumes_readBlockHeader (c : TxCodec Tx)
    (hdes : Consumes c.deserializeNoWitness) :
    Consumes (readBlockHeader c) :=
  Consumes.comp consumes_readCore fun bh => consumes_readAuxpow c hdes bh

/-! ## Exact byte-count lemmas for the fixed core -/

theorem readU32_length (s : List Nat) (a : Nat) (rest : List Nat)
    (h : readU32 s = .ok (a, rest)) : s.length = rest.length + 4 := by
  rcases s with _ | ⟨b0, _ | ⟨b1, _ | ⟨b2, _ | ⟨b3, tail⟩⟩⟩⟩
  · exact Except.noConfusion h
  · exact Except.noConfusion h
  · exact Except.noConfusion h
  · exact Except.noConfusion h
  · simp only [readU32, Except.ok.injEq, Prod.mk.injEq] at h
    obtain ⟨-, rfl⟩ := h
    simp

theorem readInt32_length (s : List Nat) (a : Int) (rest : List Nat)
    (h : readInt32 s = .ok (a, rest)) : s.length = rest.length + 4 := by
  rw [readInt32] at h
  cases hu : readU32 s with
  | error e => rw [hu] at h; exact Except.noConfusion h
  | ok p =>
    obtain ⟨m, rest'⟩ := p
    rw [hu] at h
    simp only [Except.ok.injEq, Prod.mk.injEq] at h
    obtain ⟨-, rfl⟩ := h
    exact readU32_length s m rest' hu

theorem readBytes_length (n : Nat) (s : List Nat) (a : List Nat) (rest : List Nat)
    (h : readBytes n s = .ok (a, rest)) : s.length = rest.length + n := by
  rw [readBytes] at h
  split at h
  case isTrue hle =>
    simp only [Except.ok.injEq, Prod.mk.injEq] at h
    obtain ⟨rfl, rfl⟩ := h
    simp only [List.length_drop]
    omega
  case isFalse => exact Except.noConfusion h

/-- A successful core read consumed exactly 80 bytes. -/
theorem readCore_length (s : List Nat) (h : BlockHeader Tx) (rest : List Nat)
    (hok : readBlockHeaderCore s = .ok (h, rest)) : s.length = rest.length + 80 := by
  rw [readBlockHeaderCore] at hok
  cases h1 : readInt32 s with
  | error e => rw [h1] at hok; exact Except.noConfusion hok
  | ok p1 =>
    obtain ⟨v, s1⟩ := p1
    rw [h1, step_ok] at hok
    cases h2 : readBytes 32 s1 with
    | error e => rw [h2] at hok; exact Except.noConfusion hok
    | ok p2 =>
      obtain ⟨prev, s2⟩ := p2
      rw [h2, step_ok] at hok
      cases h3 : readBytes 32 s2 with
      | error e => rw [h3] at hok; exact Except.noConfusion hok
      | ok p3 =>
        obtain ⟨mr, s3⟩ := p3
        rw [h3, step_ok] at hok
        cases h4 : readU32 s3 with
        | error e => rw [h4] at hok; exact Except.noConfusion hok
        | ok p4 =>
          obtain ⟨ts, s4⟩ := p4
          rw [h4, step_ok] at hok
          cases h5 : readU32 s4 with
          | error e => rw [h5] at hok; exact Except.noConfusion hok
          | ok p5 =>
            obtain ⟨bits, s5⟩ := p5
            rw [h5, step_ok] at hok
            cases h6 : readU32 s5 with
            | error e => rw [h6] at hok; exact Except.noConfusion hok
            | ok p6 =>
              obtain ⟨nonce, s6⟩ := p6
              rw [h6, step_ok] at hok
              simp only [Except.ok.injEq, Prod.mk.injEq] at hok
              obtain ⟨-, rfl⟩ := hok
              have e1 := readInt32_length s v s1 h1
              have e2 := readBytes_length 32 s1 prev s2 h2
              have e3 := readBytes_length 32 s2 mr s3 h3
              have e4 := readU32_length s3 ts s4 h4
              have e5 := readU32_length s4 bits s5 h5
              have e6 := readU32_length s5 nonce s6 h6
              omega

/-- An input shorter than the 80-byte core always fails to decode. -/
theorem readBlockHeader_of_short (c : TxCodec Tx) (raw : List Nat)
    (hshort : raw.length < 80) : readBlockHeader c raw = .error () := by
  rw [readBlockHeader]
  cases hc : readBlockHeaderCore raw with
  | error e => rw [step_error]
  | ok p =>
    obtain ⟨h, rest⟩ := p
    have := readCore_length raw h rest hc
    exfalso
    omega

/-! ## Merkle-branch lemmas -/

theorem checkLoop_length (dh : List Nat → List Nat) (hdh : ∀ x, (dh x).length = 32)
    (branch : List (List Nat)) (thash : List Nat) (h32 : thash.length = 32)
    (idx : Int) : (checkLoop dh branch thash idx).length = 32 := by
  induction branch generalizing thash idx with
  | nil => simpa [checkLoop]
  | cons it rest ih =>
    simp only [checkLoop]
    exact ih _ (hdh _) _

theorem check_length (dh : List Nat → List Nat) (hdh : ∀ x, (dh x).length = 32)
    (b : MerkleBranch) (hash : List Nat) (h32 : hash.length = 32) :
    (b.Check dh hash).length = 32 := by
  rw [MerkleBranch.Check]
  split
  · simp
  · exact checkLoop_length dh hdh b.Branch hash h32 b.Index

/-- On 32-byte inputs the index-based reversal is list reversal. -/
theorem revertHash_eq_reverse (t : List Nat) (h : t.length = 32) :
    revertHash t = t.reverse := by
  apply List.ext_getElem
  · simp [revertHash, h]
  · intro i h1 h2
    simp only [revertHash, List.getElem_map, List.getElem_range]
    rw [List.getElem_reverse]
    have hi : i < 32 := by simpa [revertHash] using h1
    rw [List.getD_eq_getElem]
    · congr 1
      omega
    · omega

/-! ## Truncating division by the chain-identifier base -/

theorem tdiv_65536 (k r : Int) (hr0 : 0 ≤ r) (hr1 : r < 65536) :
    Int.tdiv (65536 * k + r) 65536 =
      if 0 ≤ k then k else if r = 0 then k else k + 1 := by
  by_cases hk : 0 ≤ k
  · rw [if_pos hk, Int.tdiv_eq_ediv (by nlinarith) (by omega)]
    omega
  · rw [if_neg hk]
    by_cases hr : r = 0
    · subst hr
      rw [if_pos rfl, add_zero, Int.mul_tdiv_cancel_left k (by omega)]
    · rw [if_neg hr]
      have hkneg : k ≤ -1 := by omega
      have hneg : 65536 * k + r < 0 := by nlinarith
      have hrw : 65536 * k + r = -(-(65536 * k + r)) := by ring
      rw [hrw, Int.neg_tdiv, Int.tdiv_eq_ediv (by omega) (by omega)]
      omega

/-! ## A concrete lawful transaction codec (used to instantiate witnesses) -/

/-- The trivial transaction codec over the unit transaction type: the empty
serialization. It satisfies every lawfulness hypothesis. -/
def unitCodec : TxCodec Unit where
  serializeNoWitness := fun _ => []
  deserializeNoWitness := fun s => .ok ((), s)
  serializeSizeStripped := fun _ => 0

theorem unitCodec_roundTrips : TxRoundTrips unitCodec := fun _ _ => rfl

theorem unitCodec_sizeOk : TxSizeOk unitCodec := fun _ => rfl

theorem unitCodec_consumes : Consumes unitCodec.deserializeNoWitness := by
  intro s a rest hok
  exact consumes_pure () s a rest hok

/-! ## Decode-result characterization -/

@[simp] theorem BlockHeader.Auxpow_setAuxpow (h : BlockHeader Tx)
    (a : Option (AuxpowPayload Tx)) : (h.setAuxpow a).Auxpow = a := by
  cases h; rfl

theorem step_eq_ok {x : Except Unit (α × List Nat)}
    {f : α → List Nat → Except Unit (β × List Nat)} {b : β} {rest : List Nat}
    (h : step x f = .ok (b, rest)) :
    ∃ a s1, x = .ok (a, s1) ∧ f a s1 = .ok (b, rest) := by
  cases x with
  | error e => exact Except.noConfusion h
  | ok p =>
    obtain ⟨a, s1⟩ := p
    exact ⟨a, s1, rfl, h⟩

/-- A successful `readAuxpow` either leaves a flag-clear header untouched or
attaches a payload; it never returns a flag-set header with `Auxpow = none`. -/
theorem readAuxpow_result (c : TxCodec Tx) (bh h : BlockHeader Tx)
    (s rest : List Nat) (hok : readAuxpow c bh s = .ok (h, rest)) :
    (bh.IsAuxpow = false ∧ h = bh) ∨ ∃ ap, h = bh.setAuxpow (some ap) := by
  rw [readAuxpow] at hok
  split at hok
  case isTrue hf =>
    left
    simp only [Except.ok.injEq, Prod.mk.injEq] at hok
    exact ⟨hf, hok.1.symm⟩
  case isFalse hf =>
    right
    obtain ⟨txn, s1, -, hok⟩ := step_eq_ok hok
    obtain ⟨pbh, s2, -, hok⟩ := step_eq_ok hok
    obtain ⟨cnt, s3, -, hok⟩ := step_eq_ok hok
    obtain ⟨cb, s4, -, hok⟩ := step_eq_ok hok
    obtain ⟨cbIdx, s5, -, hok⟩ := step_eq_ok hok
    obtain ⟨cnt2, s6, -, hok⟩ := step_eq_ok hok
    obtain ⟨bc, s7, -, hok⟩ := step_eq_ok hok
    obtain ⟨bcIdx, s8, -, hok⟩ := step_eq_ok hok
    obtain ⟨parent, s9, -, hok⟩ := step_eq_ok hok
    simp only [Except.ok.injEq, Prod.mk.injEq] at hok
    exact ⟨.mk txn pbh (.mk cb cbIdx) (.mk bc bcIdx) parent, hok.1.symm⟩

/-- A decoded header never carries the AuxPoW flag without a payload. -/
theorem readBlockHeader_no_degenerate (c : TxCodec Tx) (s : List Nat)
    (h : BlockHeader Tx) (rest : List Nat)
    (hok : readBlockHeader c s = .ok (h, rest)) (hflag : h.IsAuxpow = true) :
    h.Auxpow ≠ none := by
  rw [readBlockHeader] at hok
  obtain ⟨bh0, s1, -, hok⟩ := step_eq_ok hok
  rcases readAuxpow_result c bh0 h s1 rest hok with ⟨hf, rfl⟩ | ⟨ap, rfl⟩
  · rw [hf] at hflag
    exact Bool.noConfusion hflag
  · simp

/-- The wire form collapses to the 80-byte core whenever the flag is clear or
the payload is nil. -/
theorem writeBlockHeader_eq_core (c : TxCodec Tx) (h : BlockHeader Tx)
    (hcase : h.IsAuxpow = false ∨ h.Auxpow = none) :
    writeBlockHeader c h = writeBlockHeaderNoAuxpow h := by
  rcases hcase with hflag | hnone
  · rw [writeBlockHeader, if_neg (by simp [hflag]), List.append_nil]
  · simp [writeBlockHeader, writeAuxpow, hnone]

theorem writeBlockHeader_length_core (c : TxCodec Tx) (h : BlockHeader Tx)
    (hcase : h.IsAuxpow = false ∨ h.Auxpow = none)
    (hp : h.PrevBlock.length = 32) (hm : h.MerkleRoot.length = 32) :
    (writeBlockHeader c h).length = 80 := by
  rw [writeBlockHeader_eq_core c h hcase]
  exact writeCore_length h hp hm

theorem writeBlockHeader_length_aux (c : TxCodec Tx) (hsz : TxSizeOk c)
    (h : BlockHeader Tx) (ap : Auxpow Tx) (hflag : h.IsAuxpow = true)
    (hap : h.Auxpow = some ap) (hp : h.PrevBlock.length = 32)
    (hm : h.MerkleRoot.length = 32) (hwfa : WFaux ap) :
    (writeBlockHeader c h).length = 80 + ap.SerializeSize c := by
  rw [writeBlockHeader, if_pos hflag, List.length_append, writeCore_length h hp hm,
    writeAuxpow_length c hsz h ap hap hwfa]

/-! ## Concrete data used by witnesses and counterexamples -/

def hdrDegenerate : BlockHeader Unit :=
  .mk 256 (List.replicate 32 0) (List.replicate 32 0) 0 0 0 none

def hdr0 : BlockHeader Unit :=
  .mk 0 (List.replicate 32 0) (List.replicate 32 0) 0 0 0 none

def hdrChainId : BlockHeader Unit :=
  .mk (-65436) (List.replicate 32 0) (List.replicate 32 0) 0 0 0 none

def exParent : BlockHeader Unit :=
  .mk 2 (List.replicate 32 3) (List.replicate 32 4) 1600000000 100 200 none

def exAux : Auxpow Unit :=
  .mk () (List.replicate 32 5) (.mk [List.replicate 32 6] 0) (.mk [] 1) exParent

def exCoreHeader : BlockHeader Unit :=
  .mk 1 (List.replicate 32 7) (List.replicate 32 9) 1700000000 486604799 12345 none

def exCoreHeaderAux : BlockHeader Unit :=
  .mk 1 (List.replicate 32 7) (List.replicate 32 9) 1700000000 486604799 12345 (some exAux)

def exAuxHeader : BlockHeader Unit :=
  .mk 256 (List.replicate 32 7) (List.replicate 32 9) 1700000000 486604799 12345 (some exAux)

/-! ## Claims -/

/-- C1, counterexample: for the concrete header with version 256 (flag set)
and `auxpow = none`, encoding yields exactly the 80-byte core form, but
decoding those same 80 bytes returns a decode error rather than succeeding
with `auxpow = none` — refuting the claim's decode half. -/
theorem c1_counterexample :
    (writeBlockHeader unitCodec hdrDegenerate).length = 80 ∧
    writeBlockHeader unitCodec hdrDegenerate = writeBlockHeaderNoAuxpow hdrDegenerate ∧
    readBlockHeader unitCodec (writeBlockHeader unitCodec hdrDegenerate) = .error () := by
  refine ⟨by decide, rfl, rfl⟩

/-- C1 (amended): a header with the flag set but `auxpow = null` encodes to
exactly the 80-byte core form (no extra bytes); but decoding a stream whose
header has the flag bit set unconditionally attempts to parse an AuxPoW
payload, so a successful decode never yields a flag-set header with
`auxpow = null` (and decoding the bare 80 bytes errors, as the
counterexample shows). -/
theorem c1_degenerate_encode (Tx : Type) (c : TxCodec Tx) :
    (∀ h : BlockHeader Tx, h.Auxpow = none →
       writeBlockHeader c h = writeBlockHeaderNoAuxpow h) ∧
    (∀ h : BlockHeader Tx, h.Auxpow = none → h.PrevBlock.length = 32 →
       h.MerkleRoot.length = 32 → (writeBlockHeader c h).length = 80) ∧
    (∀ s h rest, readBlockHeader c s = .ok (h, rest) → h.IsAuxpow = true →
       h.Auxpow ≠ none) := by
  refine ⟨?_, ?_, ?_⟩
  · intro h hnone
    exact writeBlockHeader_eq_core c h (Or.inr hnone)
  · intro h hnone hp hm
    exact writeBlockHeader_length_core c h (Or.inr hnone) hp hm
  · intro s h rest hok hflag
    exact readBlockHeader_no_degenerate c s h rest hok hflag

/-- C1 (amended), witness: the encode half at the degenerate concrete header
and the decode half at the successfully-decoding stream of `exAuxHeader`. -/
theorem c1_degenerate_encode_witness :
    writeBlockHeader unitCodec hdrDegenerate = writeBlockHeaderNoAuxpow hdrDegenerate ∧
    (writeBlockHeader unitCodec hdrDegenerate).length = 80 := by
  refine ⟨(c1_degenerate_encode Unit unitCodec).1 hdrDegenerate rfl,
    (c1_degenerate_encode Unit unitCodec).2.1 hdrDegenerate rfl (by decide) (by decide)⟩

/-- C2, counterexample: version `-65436 = 65536 * (-1) + 100` has `k = -1`,
but `GetChainId` returns `0` — neither `k` itself nor the 32-bit
two's-complement image `4294967295` of `k` — because Go's `/` truncates
toward zero rather than flooring. -/
theorem c2_counterexample :
    ((-65436 : Int) = 65536 * (-1) + 100) ∧
    hdrChainId.GetChainId = 0 ∧
    Int.toNat ((-1 : Int) % 4294967296) = 4294967295 ∧
    (0 : Nat) ≠ 4294967295 ∧
    ((0 : Nat) : Int) ≠ (-1 : Int) := by
  refine ⟨by norm_num, by decide, by decide, by decide, by decide⟩

/-- C2 (amended): for version `65536 * k + r` with `0 ≤ r < 65536` in the
signed 32-bit range, `GetChainId` returns the unsigned-32 image of the
truncating division `version / 65536`: that is `k` when `k ≥ 0`, `k` when
`k < 0` and `r = 0`, and `k + 1` (as two's complement) when `k < 0` and
`r > 0`. -/
theorem c2_chainId (Tx : Type) (k r : Int) (p m : List Nat) (t b n : Nat)
    (a : Option (Auxpow Tx)) (hr0 : 0 ≤ r) (hr1 : r < 65536)
    (_hlo : -2147483648 ≤ 65536 * k + r) (_hhi : 65536 * k + r < 2147483648) :
    (BlockHeader.mk (65536 * k + r) p m t b n a).GetChainId =
      Int.toNat ((if 0 ≤ k then k else if r = 0 then k else k + 1) % 4294967296) := by
  show Int.toNat ((Int.tdiv (65536 * k + r) 65536) % 4294967296) = _
  rw [tdiv_65536 k r hr0 hr1]

/-- C2 (amended), witness at `k = -2, r = 5`: the chain id is the
two's-complement image of `k + 1 = -1`. -/
theorem c2_chainId_witness :
    (BlockHeader.mk (65536 * (-2) + 5) [] [] 0 0 0
        (none : Option (Auxpow Unit))).GetChainId =
      Int.toNat ((if (0 : Int) ≤ -2 then (-2 : Int) else if (5 : Int) = 0
        then (-2 : Int) else -2 + 1) % 4294967296) :=
  c2_chainId Unit (-2) 5 [] [] 0 0 0 none (by norm_num) (by norm_num)
    (by norm_num) (by norm_num)

/-- C3: encode/decode round-trip with size agreement — for every lawful
transaction codec and well-formed header: without AuxPoW (flag clear,
payload nil), `decode (encode h) = h` and
`SerializeSize h = length (encode h) = 80`; with the flag set and a
populated payload (branches of any length, parent in its one-level form),
`decode (encode h) = h` field-for-field including the nested parent-header
fields, and `SerializeSize h = length (encode h)`. -/
theorem c3_roundTrip (Tx : Type) (c : TxCodec Tx) (hrt : TxRoundTrips c)
    (hsz : TxSizeOk c) (h : BlockHeader Tx) :
    (h.IsAuxpow = false → h.Auxpow = none → WFcore h →
       readBlockHeader c (writeBlockHeader c h) = .ok (h, []) ∧
       h.SerializeSize c = (writeBlockHeader c h).length ∧
       (writeBlockHeader c h).length = 80) ∧
    (∀ ap, h.IsAuxpow = true → h.Auxpow = some ap → WFcore h → WFaux ap →
       readBlockHeader c (writeBlockHeader c h) = .ok (h, []) ∧
       h.SerializeSize c = (writeBlockHeader c h).length) := by
  constructor
  · intro hflag hnone hwf
    have hp := hwf.2.2.1
    have hm := hwf.2.2.2.1
    have hlen := writeBlockHeader_length_core c h (Or.inl hflag) hp hm
    exact ⟨roundTrip_noAux c h hwf hflag hnone,
      by rw [serializeSize_of_none c h hnone, hlen], hlen⟩
  · intro ap hflag hap hwf hwfa
    have hp := hwf.2.2.1
    have hm := hwf.2.2.2.1
    refine ⟨roundTrip_aux c hrt h ap hwf hflag hap hwfa, ?_⟩
    rw [serializeSize_of_some c h ap hflag hap,
      writeBlockHeader_length_aux c hsz h ap hflag hap hp hm hwfa]

/-- C3, witness: the populated-AuxPoW case at a concrete header whose
payload has a length-1 coinbase branch and a length-0 blockchain branch. -/
theorem c3_roundTrip_witness :
    readBlockHeader unitCodec (writeBlockHeader unitCodec exAuxHeader) =
      .ok (exAuxHeader, []) ∧
    exAuxHeader.SerializeSize unitCodec =
      (writeBlockHeader unitCodec exAuxHeader).length :=
  (c3_roundTrip Unit unitCodec unitCodec_roundTrips unitCodec_sizeOk exAuxHeader).2
    exAux (by decide) rfl (by decide)
    ⟨by decide, by decide, by decide, by decide, rfl⟩

/-- C4: truncation is never tolerated — whenever decoding succeeds it
consumed a definite prefix of the stream (success replays with any other
trailing rest), and decoding any strict truncation of that consumed prefix
fails with a decode error, which is propagated as the overall result with no
partial recovery. Holds for every transaction codec whose deserializer
itself satisfies the same consumption contract. -/
theorem c4_truncation (Tx : Type) (c : TxCodec Tx)
    (hdes : Consumes c.deserializeNoWitness) (s : List Nat)
    (h : BlockHeader Tx) (rest : List Nat)
    (hok : readBlockHeader c s = .ok (h, rest)) :
    ∃ pre, s = pre ++ rest ∧
      (∀ r2, readBlockHeader c (pre ++ r2) = .ok (h, r2)) ∧
      ∀ k, k < pre.length → readBlockHeader c (pre.take k) = .error () :=
  consumes_readBlockHeader c hdes s h rest hok

/-- C4, witness: the 80-byte all-zero stream decodes, and every strict
truncation of it fails. -/
theorem c4_truncation_witness :
    ∃ pre, (List.replicate 80 0 : List Nat) = pre ++ [] ∧
      (∀ r2, readBlockHeader unitCodec (pre ++ r2) = .ok (hdr0, r2)) ∧
      ∀ k, k < pre.length → readBlockHeader unitCodec (pre.take k) = .error () :=
  c4_truncation Unit unitCodec unitCodec_consumes (List.replicate 80 0) hdr0 [] rfl

/-- C5: both header hashes ignore the AuxPoW payload — any two headers
agreeing on version, prevBlockHash, merkleRoot, timestamp, bits and nonce
(differing at most in their `auxpow` field) have equal `BlockHash` and equal
`PowHash`, for every double-hash and scrypt collaborator, because both are
computed over the 80-byte no-AuxPoW core serialization only. -/
theorem c5_hashIgnoresAuxpow (Tx : Type) (dh : List Nat → List Nat)
    (sk : List Nat → List Nat → Nat → Nat → Nat → Nat → Except Unit (List Nat))
    (h1 h2 : BlockHeader Tx) (hv : h1.Version = h2.Version)
    (hp : h1.PrevBlock = h2.PrevBlock) (hm : h1.MerkleRoot = h2.MerkleRoot)
    (ht : h1.Timestamp = h2.Timestamp) (hb : h1.Bits = h2.Bits)
    (hn : h1.Nonce = h2.Nonce) :
    BlockHash dh h1 = BlockHash dh h2 ∧ PowHash sk h1 = PowHash sk h2 := by
  have hcore : writeBlockHeaderNoAuxpow h1 = writeBlockHeaderNoAuxpow h2 := by
    rw [writeBlockHeaderNoAuxpow, writeBlockHeaderNoAuxpow, hv, hp, hm, ht, hb, hn]
  exact ⟨congrArg dh hcore, by rw [PowHash, PowHash, hcore]⟩

/-- C5, witness: two concrete headers differing only in that one carries an
AuxPoW payload and the other does not. -/
theorem c5_hashIgnoresAuxpow_witness :
    BlockHash (fun x => x) exCoreHeader = BlockHash (fun x => x) exCoreHeaderAux ∧
    PowHash (fun p _ _ _ _ _ => .ok p) exCoreHeader =
      PowHash (fun p _ _ _ _ _ => .ok p) exCoreHeaderAux :=
  c5_hashIgnoresAuxpow Unit (fun x => x) (fun p _ _ _ _ _ => .ok p)
    exCoreHeader exCoreHeaderAux rfl rfl rfl rfl rfl rfl

/-- C6: Merkle sentinel — for every branch contents and every leaf hash,
`MerkleBranch.Check` with index exactly `-1` returns the all-zero 32-byte
hash as a normal (non-error) result, for every double-hash collaborator. -/
theorem c6_sentinel (dh : List Nat → List Nat) (branch : List (List Nat))
    (hash : List Nat) :
    (MerkleBranch.mk branch (-1)).Check dh hash = List.replicate 32 0 := by
  rw [MerkleBranch.Check]
  simp

/-- C7: Merkle single-level step — over the one-element branch `[s]`,
`MerkleBranch.Check` returns `dh (leaf ++ s)` when the index is `0` and
`dh (s ++ leaf)` when the index is `1`: the index's lowest bit selects the
concatenation order. -/
theorem c7_singleLevel (dh : List Nat → List Nat) (s leaf : List Nat) :
    (MerkleBranch.mk [s] 0).Check dh leaf = dh (leaf ++ s) ∧
    (MerkleBranch.mk [s] 1).Check dh leaf = dh (s ++ leaf) := by
  constructor
  · rw [MerkleBranch.Check]
    norm_num
    rw [checkLoop]
    norm_num [checkLoop]
  · rw [MerkleBranch.Check]
    norm_num
    rw [checkLoop]
    norm_num [checkLoop]

/-- C8: for every branch, index and leaf hash (32-byte leaf, 32-byte-valued
double hash), `MerkleBranch.CheckAndRevert` returns exactly the byte-order
reversal of the 32-byte hash `MerkleBranch.Check` returns on the same
inputs. -/
theorem c8_revert (dh : List Nat → List Nat) (b : MerkleBranch)
    (hash : List Nat) (hdh : ∀ x, (dh x).length = 32) (h32 : hash.length = 32) :
    b.CheckAndRevert dh hash = (b.Check dh hash).reverse := by
  rw [MerkleBranch.CheckAndRevert, revertHash_eq_reverse]
  exact check_length dh hdh b hash h32

/-- C8, witness at a concrete constant double hash, branch and leaf. -/
theorem c8_revert_witness :
    (MerkleBranch.mk [List.replicate 32 1] 0).CheckAndRevert
        (fun _ => List.replicate 32 2) (List.replicate 32 3) =
      ((MerkleBranch.mk [List.replicate 32 1] 0).Check
        (fun _ => List.replicate 32 2) (List.replicate 32 3)).reverse :=
  c8_revert (fun _ => List.replicate 32 2) (MerkleBranch.mk [List.replicate 32 1] 0)
    (List.replicate 32 3) (fun _ => by simp) (by simp)

/-- C9: for every header whose AuxPoW flag is clear, encoding writes exactly
the 80-byte core form and `SerializeSize` returns 80, even when the `auxpow`
field is non-null — the payload is silently never serialized. -/
theorem c9_flagClear (Tx : Type) (c : TxCodec Tx) (h : BlockHeader Tx)
    (hflag : h.IsAuxpow = false) (hp : h.PrevBlock.length = 32)
    (hm : h.MerkleRoot.length = 32) :
    writeBlockHeader c h = writeBlockHeaderNoAuxpow h ∧
    (writeBlockHeader c h).length = 80 ∧
    h.SerializeSize c = 80 :=
  ⟨writeBlockHeader_eq_core c h (Or.inl hflag),
   writeBlockHeader_length_core c h (Or.inl hflag) hp hm,
   serializeSize_of_flag_clear c h hflag⟩

/-- C9, witness: a flag-clear concrete header carrying a non-null payload. -/
theorem c9_flagClear_witness :
    writeBlockHeader unitCodec exCoreHeaderAux = writeBlockHeaderNoAuxpow exCoreHeaderAux ∧
    (writeBlockHeader unitCodec exCoreHeaderAux).length = 80 ∧
    exCoreHeaderAux.SerializeSize unitCodec = 80 :=
  c9_flagClear Unit unitCodec exCoreHeaderAux (by decide) (by decide) (by decide)

/-- C10: `GetBlockHeaderSize` is total and never signals failure — when the
internal decode errors (in particular on any input shorter than the 80-byte
core) it returns 80, the `SerializeSize` of the partially-decoded header
(whose `Auxpow` field is never assigned on a failure path), and when the
decode succeeds it returns that header's `SerializeSize`. -/
theorem c10_total (Tx : Type) (c : TxCodec Tx) (raw : List Nat) :
    (readBlockHeader c raw = .error () → GetBlockHeaderSize c raw = 80) ∧
    (∀ h rest, readBlockHeader c raw = .ok (h, rest) →
       GetBlockHeaderSize c raw = h.SerializeSize c) ∧
    (raw.length < 80 → GetBlockHeaderSize c raw = 80) := by
  refine ⟨?_, ?_, ?_⟩
  · intro herr
    rw [GetBlockHeaderSize, herr]
    rfl
  · intro h rest hok
    rw [GetBlockHeaderSize, hok]
  · intro hshort
    rw [GetBlockHeaderSize, readBlockHeader_of_short c raw hshort]
    rfl

/-- C10, witness: a 3-byte malformed input yields 80 with no error. -/
theorem c10_total_witness : GetBlockHeaderSize unitCodec [1, 2, 3] = 80 :=
  (c10_total Unit unitCodec [1, 2, 3]).2.2 (by norm_num)
